import Mathlib

/-!
Verification of the CryptoScreener ingestion engine against its
natural-language specification.

The repository stores OHLCV candles in a `candles` table keyed by
`(symbol, timeframe, ts)` (the `ensure_table` schema embedded in
src/patch_opt.ps1; src/unnamed/part_000 has the TimescaleDB variant with
one table per timeframe).  The ingestion scripts themselves are embedded
in src/patch_opt.ps1 (binance_to_db_opt.py, multi_symbols_to_db_opt.py,
minute_daemon_multi_opt.py): they provide the upsert
(`insert_rows` / `insert_all` / `insert_one`, all
`INSERT ... ON CONFLICT (symbol,timeframe,ts) DO NOTHING`), the
latest-timestamp query (`last_ts_from_db`), the trailing-bar trim
(`trim_incomplete`) and the retry loop (`fetch_with_retry`), and those
definitions below are translated from that source.  No gap-detection or
rate-limiter implementation exists among the source files (ccxt's
`enableRateLimit` is an external library flag), so those two operations
are modelled from the spec; each such definition is marked
`Modelled from the spec:` in its doc comment.
-/

/-- One OHLCV candle row, as stored in the `candles` table created by
`ensure_table` in src/patch_opt.ps1 (symbol, timeframe, ts, open, high,
low, close, volume).  Timestamps are naturals (epoch milliseconds, as
delivered by `fetch_ohlcv` and stored in the `ts bigint` column); prices
and volume are integers standing in for the stored numerics (their
numeric content is irrelevant to the claims proved here). -/
structure Candle where
  symbol : String
  timeframe : String
  ts : Nat
  op : Int
  hi : Int
  lo : Int
  cl : Int
  vol : Int
deriving DecidableEq, Repr

/-- True when the store already holds a row with the same conflict key
`(symbol, timeframe, ts)` — the `PRIMARY KEY(symbol,timeframe,ts)`
constraint of `ensure_table` in src/patch_opt.ps1 (src/unnamed/part_000
has the per-timeframe variant with `PRIMARY KEY (symbol, ts)`). -/
def keyPresent (store : List Candle) (r : Candle) : Bool :=
  store.any (fun x => x.symbol == r.symbol && x.timeframe == r.timeframe && x.ts == r.ts)

/-- One candle-row insert of `insert_rows` / `insert_all` / `insert_one`
(src/patch_opt.ps1, embedded binance_to_db_opt.py,
multi_symbols_to_db_opt.py and minute_daemon_multi_opt.py):
`INSERT INTO candles ... ON CONFLICT (symbol,timeframe,ts) DO NOTHING` —
a row whose key is already present is skipped (rowcount 0), otherwise
the row is appended. -/
def upsertRow (store : List Candle) (r : Candle) : List Candle :=
  if keyPresent store r then store else store ++ [r]

/-- The insert loop of `insert_rows` / `insert_all` (src/patch_opt.ps1):
each row of the batch is inserted with
`ON CONFLICT (symbol,timeframe,ts) DO NOTHING`, in order. -/
def upsert (store : List Candle) (rows : List Candle) : List Candle :=
  rows.foldl upsertRow store

/-- Two candle rows collide on the storage conflict key. -/
def sameKey (a b : Candle) : Bool :=
  a.symbol == b.symbol && a.timeframe == b.timeframe && a.ts == b.ts

/-- A store satisfies the schema invariant when no two rows share the
`(symbol, timeframe, ts)` key. -/
def uniqueKeys (store : List Candle) : Prop :=
  store.Pairwise (fun a b => sameKey a b = false)

/-- Fold step for the latest-timestamp query of one `(symbol, timeframe)`
stream. -/
def latestStep (sym tf : String) (acc : Option Nat) (r : Candle) : Option Nat :=
  if r.symbol == sym && r.timeframe == tf then
    match acc with
    | none => some r.ts
    | some m => some (max m r.ts)
  else acc

/-- Maximum persisted timestamp of a stream: `last_ts_from_db` in
src/patch_opt.ps1 runs `SELECT COALESCE(MAX(ts),0) FROM candles WHERE
symbol=... AND timeframe=...`; `none` models the empty-stream case that
the SQL coalesces to 0 (src/unnamed/part_009 has the ad-hoc
`SELECT max(ts)` variant). -/
def latestTs (store : List Candle) (sym tf : String) : Option Nat :=
  store.foldl (latestStep sym tf) none

/-- Order on optional timestamps: `none` (no data) is below everything. -/
def optLe : Option Nat → Option Nat → Bool
  | none, _ => true
  | some _, none => false
  | some a, some b => a ≤ b

/-- The database flush operation: `POST /api/db/flush` truncates the
staging and candles tables (src/unnamed/part_002, called by
`flushDatabase` in src/unnamed/part_003). -/
def flushCandles (_store : List Candle) : List Candle := []

/-- The `current_bar_start = now - (now % sec)` of `trim_incomplete`
(src/patch_opt.ps1): start of the still-open bucket at wall-clock second
`T` for a cadence of `c` seconds. -/
def bucketStart (T c : Nat) : Nat := T - T % c

/-- Function `trim_incomplete(rows, tf)` of src/patch_opt.ps1 (embedded
binance_to_db_opt.py and multi_symbols_to_db_opt.py): with `sec` the
cadence in seconds (`secmap[tf]`) and `now` the wall-clock epoch second
(`int(time.time())`), it keeps the rows whose millisecond timestamp is
at most `cutoff_ms = current_bar_start * 1000 - 1` (an integer, hence
the cast), dropping the still-open trailing bar. -/
def trimIncomplete (now sec : Nat) (rows : List Candle) : List Candle :=
  rows.filter (fun r => decide ((r.ts : Int) ≤ (bucketStart now sec : Int) * 1000 - 1))

/-- The `secmap` lookup of `trim_incomplete` (src/patch_opt.ps1), sending
a timeframe key to its cadence in seconds. -/
def secmap (tf : String) : Option Nat :=
  if tf == "1m" then some 60
  else if tf == "5m" then some 300
  else if tf == "15m" then some 900
  else if tf == "1h" then some 3600
  else none

/-- The fetch-trim-insert flow of src/patch_opt.ps1: the main block of
binance_to_db_opt.py (`data = trim_incomplete(data, TF); insert_rows(data)`)
and `fetch_one` followed by `insert_all` in multi_symbols_to_db_opt.py —
the fetched rows are trimmed with `trim_incomplete`, then inserted with
`ON CONFLICT DO NOTHING`. -/
def persistFetch (store : List Candle) (now sec : Nat) (rows : List Candle) : List Candle :=
  upsert store (trimIncomplete now sec rows)

/-- One raw OHLCV bar `(ts, o, h, l, c, v)` as returned by
`ex.fetch_ohlcv` (timestamp in epoch milliseconds). -/
structure RawBar where
  ts : Nat
  o : Int
  h : Int
  l : Int
  c : Int
  v : Int
deriving DecidableEq, Repr

/-- The values bound by `INSERT INTO candles ...` for one raw bar of a
given symbol and timeframe (src/patch_opt.ps1). -/
def rawToCandle (sym tf : String) (b : RawBar) : Candle :=
  ⟨sym, tf, b.ts, b.o, b.h, b.l, b.c, b.v⟩

/-- Function `insert_one(sym, tf, row)` of minute_daemon_multi_opt.py
(src/patch_opt.ps1): an empty fetch result leaves the store unchanged,
otherwise the last fetched row (`row[-1]`) is inserted with
`ON CONFLICT DO NOTHING` — with no trailing-bar trim. -/
def insertOne (sym tf : String) (row : List RawBar) (store : List Candle) : List Candle :=
  match row.getLast? with
  | none => store
  | some b => upsertRow store (rawToCandle sym tf b)

-- Store lemmas.

theorem keyPresent_append (s t : List Candle) (r : Candle) :
    keyPresent (s ++ t) r = (keyPresent s r || keyPresent t r) := by
  simp [keyPresent, List.any_append]

theorem keyPresent_upsertRow (s : List Candle) (x r : Candle)
    (h : keyPresent s r = true) : keyPresent (upsertRow s x) r = true := by
  unfold upsertRow
  split
  · exact h
  · rw [keyPresent_append, h, Bool.true_or]

theorem keyPresent_upsertRow_self (s : List Candle) (r : Candle) :
    keyPresent (upsertRow s r) r = true := by
  unfold upsertRow
  split
  · assumption
  · rw [keyPresent_append, Bool.or_eq_true]
    right
    simp [keyPresent]

theorem keyPresent_upsert (rows : List Candle) (s : List Candle) (r : Candle)
    (h : keyPresent s r = true) : keyPresent (upsert s rows) r = true := by
  induction rows generalizing s with
  | nil => exact h
  | cons x xs ih => exact ih (upsertRow s x) (keyPresent_upsertRow s x r h)

theorem keyPresent_upsert_mem (rows : List Candle) (s : List Candle) (r : Candle)
    (h : r ∈ rows) : keyPresent (upsert s rows) r = true := by
  induction rows generalizing s with
  | nil => cases h
  | cons x xs ih =>
    show keyPresent (upsert (upsertRow s x) xs) r = true
    rcases List.mem_cons.mp h with h1 | h2
    · rw [h1]
      exact keyPresent_upsert xs (upsertRow s x) x (keyPresent_upsertRow_self s x)
    · exact ih h2 (s := upsertRow s x)

theorem upsert_noop (rows : List Candle) (s : List Candle)
    (h : ∀ r ∈ rows, keyPresent s r = true) : upsert s rows = s := by
  induction rows with
  | nil => rfl
  | cons x xs ih =>
    have hx : upsertRow s x = s := by
      unfold upsertRow
      rw [if_pos (h x (List.mem_cons_self x xs))]
    show upsert (upsertRow s x) xs = s
    rw [hx]
    exact ih (fun r hr => h r (List.mem_cons_of_mem x hr))

theorem sameKey_of_keyPresent_false (s : List Candle) (r : Candle)
    (h : keyPresent s r = false) : ∀ x ∈ s, sameKey x r = false := by
  intro x hx
  cases hsk : sameKey x r
  · rfl
  · exfalso
    have hkp : keyPresent s r = true := by
      unfold keyPresent
      rw [List.any_eq_true]
      unfold sameKey at hsk
      exact ⟨x, hx, hsk⟩
    rw [hkp] at h
    cases h

theorem uniqueKeys_upsertRow (s : List Candle) (r : Candle)
    (h : uniqueKeys s) : uniqueKeys (upsertRow s r) := by
  cases hk : keyPresent s r with
  | true => simpa [upsertRow, hk] using h
  | false =>
    have hrow : upsertRow s r = s ++ [r] := by simp [upsertRow, hk]
    rw [hrow, uniqueKeys, List.pairwise_append]
    refine ⟨h, List.pairwise_singleton _ _, ?_⟩
    intro a ha b hb
    have hb' : b = r := List.mem_singleton.mp hb
    rw [hb']
    exact sameKey_of_keyPresent_false s r hk a ha

theorem uniqueKeys_upsert (rows : List Candle) (s : List Candle)
    (h : uniqueKeys s) : uniqueKeys (upsert s rows) := by
  induction rows generalizing s with
  | nil => exact h
  | cons x xs ih => exact ih (upsertRow s x) (uniqueKeys_upsertRow s x h)

/-- C2. Upsert of candle rows is idempotent for historical bars: a second
upsert of the same batch leaves the store unchanged, re-delivery of a row
whose `(symbol, timeframe, ts)` key is already present is a no-op rather
than a duplicate insert, and upsert preserves the at-most-one-row-per-key
schema invariant. -/
theorem upsert_twice_eq_upsert_once (s : List Candle) (rows : List Candle) (r : Candle) :
    upsert (upsert s rows) rows = upsert s rows ∧
    (keyPresent s r = true → upsertRow s r = s) ∧
    (uniqueKeys s → uniqueKeys (upsert s rows)) := by
  refine ⟨?_, ?_, ?_⟩
  · exact upsert_noop rows (upsert s rows) (fun x hx => keyPresent_upsert_mem rows s x hx)
  · intro h
    unfold upsertRow
    rw [if_pos h]
  · exact uniqueKeys_upsert rows s

/-- Witness for C2 at a concrete store and batch. -/
theorem upsert_twice_eq_upsert_once_witness :
    upsert (upsert [⟨"BTC/USDT", "1m", 60, 1, 2, 0, 1, 10⟩]
        [⟨"BTC/USDT", "1m", 60, 1, 2, 0, 1, 10⟩, ⟨"BTC/USDT", "1m", 120, 1, 3, 1, 2, 5⟩])
        [⟨"BTC/USDT", "1m", 60, 1, 2, 0, 1, 10⟩, ⟨"BTC/USDT", "1m", 120, 1, 3, 1, 2, 5⟩] =
      upsert [⟨"BTC/USDT", "1m", 60, 1, 2, 0, 1, 10⟩]
        [⟨"BTC/USDT", "1m", 60, 1, 2, 0, 1, 10⟩, ⟨"BTC/USDT", "1m", 120, 1, 3, 1, 2, 5⟩] ∧
    upsertRow [⟨"BTC/USDT", "1m", 60, 1, 2, 0, 1, 10⟩] ⟨"BTC/USDT", "1m", 60, 1, 2, 0, 1, 10⟩ =
      [⟨"BTC/USDT", "1m", 60, 1, 2, 0, 1, 10⟩] ∧
    uniqueKeys (upsert [⟨"BTC/USDT", "1m", 60, 1, 2, 0, 1, 10⟩]
        [⟨"BTC/USDT", "1m", 60, 1, 2, 0, 1, 10⟩, ⟨"BTC/USDT", "1m", 120, 1, 3, 1, 2, 5⟩]) := by
  have h := upsert_twice_eq_upsert_once [⟨"BTC/USDT", "1m", 60, 1, 2, 0, 1, 10⟩]
    [⟨"BTC/USDT", "1m", 60, 1, 2, 0, 1, 10⟩, ⟨"BTC/USDT", "1m", 120, 1, 3, 1, 2, 5⟩]
    ⟨"BTC/USDT", "1m", 60, 1, 2, 0, 1, 10⟩
  exact ⟨h.1, h.2.1 (by decide), h.2.2 (by simp [uniqueKeys])⟩

-- Latest-timestamp monotonicity (C3).

theorem optLe_refl (a : Option Nat) : optLe a a = true := by
  cases a with
  | none => rfl
  | some m => simp [optLe]

theorem optLe_trans (a b c : Option Nat) (h1 : optLe a b = true) (h2 : optLe b c = true) :
    optLe a c = true := by
  cases a with
  | none => rfl
  | some x =>
    cases b with
    | none => cases h1
    | some y =>
      cases c with
      | none => cases h2
      | some z =>
        simp only [optLe, decide_eq_true_eq] at h1 h2 ⊢
        omega

theorem optLe_latestStep (sym tf : String) (acc : Option Nat) (r : Candle) :
    optLe acc (latestStep sym tf acc r) = true := by
  unfold latestStep
  split
  · cases acc with
    | none => rfl
    | some m => simp [optLe]
  · exact optLe_refl acc

theorem optLe_foldl_latestStep (sym tf : String) (t : List Candle) (acc : Option Nat) :
    optLe acc (t.foldl (latestStep sym tf) acc) = true := by
  induction t generalizing acc with
  | nil => exact optLe_refl acc
  | cons r rs ih =>
    exact optLe_trans _ _ _ (optLe_latestStep sym tf acc r) (ih (latestStep sym tf acc r))

theorem upsertRow_append (s : List Candle) (r : Candle) :
    ∃ t, upsertRow s r = s ++ t := by
  unfold upsertRow
  split
  · exact ⟨[], (List.append_nil s).symm⟩
  · exact ⟨[r], rfl⟩

theorem upsert_append (rows : List Candle) (s : List Candle) :
    ∃ t, upsert s rows = s ++ t := by
  induction rows generalizing s with
  | nil => exact ⟨[], (List.append_nil s).symm⟩
  | cons x xs ih =>
    obtain ⟨t0, ht0⟩ := upsertRow_append s x
    obtain ⟨t1, ht1⟩ := ih (upsertRow s x)
    refine ⟨t0 ++ t1, ?_⟩
    show upsert (upsertRow s x) xs = s ++ (t0 ++ t1)
    rw [ht1, ht0, List.append_assoc]

theorem latestTs_upsert_mono (s : List Candle) (rows : List Candle) (sym tf : String) :
    optLe (latestTs s sym tf) (latestTs (upsert s rows) sym tf) = true := by
  obtain ⟨t, ht⟩ := upsert_append rows s
  rw [ht]
  unfold latestTs
  rw [List.foldl_append]
  exact optLe_foldl_latestStep sym tf t _

/-- C3 (amended). Across any sequence of ingestion-run writes — each run
only inserts candle batches through the `ON CONFLICT DO NOTHING` loops
of `insert_rows` / `insert_all` / `insert_one` (src/patch_opt.ps1) — the
latest persisted timestamp of every stream is non-decreasing. -/
theorem latestTs_monotone_across_runs (s : List Candle) (runs : List (List Candle))
    (sym tf : String) :
    optLe (latestTs s sym tf) (latestTs (runs.foldl upsert s) sym tf) = true := by
  induction runs generalizing s with
  | nil => exact optLe_refl _
  | cons rows rest ih =>
    exact optLe_trans _ _ _ (latestTs_upsert_mono s rows sym tf) (ih (upsert s rows))

/-- C3 counterexample. The claim as stated — no operation reachable
between runs ever lowers the maximum persisted timestamp — is false: the
flush operation (`POST /api/db/flush`, src/unnamed/part_002, invoked by
`flushDatabase` in src/unnamed/part_003) truncates the candles tables, so
a stream whose latest timestamp was 300 has none afterwards. -/
theorem flush_lowers_latestTs :
    latestTs [⟨"BTC/USDT", "1m", 300, 1, 2, 0, 1, 10⟩] "BTC/USDT" "1m" = some 300 ∧
    latestTs (flushCandles [⟨"BTC/USDT", "1m", 300, 1, 2, 0, 1, 10⟩]) "BTC/USDT" "1m" = none ∧
    optLe (some 300) none = false := by
  exact ⟨rfl, rfl, rfl⟩

-- No trailing-bar leakage (C8).

theorem mem_upsertRow (s : List Candle) (x r : Candle) (h : r ∈ upsertRow s x) :
    r ∈ s ∨ r = x := by
  unfold upsertRow at h
  split at h
  · exact Or.inl h
  · rcases List.mem_append.mp h with h1 | h2
    · exact Or.inl h1
    · exact Or.inr (List.mem_singleton.mp h2)

theorem mem_upsert (rows : List Candle) (s : List Candle) (r : Candle)
    (h : r ∈ upsert s rows) : r ∈ s ∨ r ∈ rows := by
  induction rows generalizing s with
  | nil => exact Or.inl h
  | cons x xs ih =>
    have h' : r ∈ upsert (upsertRow s x) xs := h
    rcases ih h' (s := upsertRow s x) with h1 | h2
    · rcases mem_upsertRow s x r h1 with h3 | h4
      · exact Or.inl h3
      · exact Or.inr (h4 ▸ List.mem_cons_self x xs)
    · exact Or.inr (List.mem_cons_of_mem x h2)

/-- C8 (amended). No trailing-bar leakage holds on the trim-then-insert
flow: when a fetch performed at wall-clock second `now` on a stream of
cadence `sec` seconds is persisted through `trim_incomplete` followed by
the `ON CONFLICT DO NOTHING` insert loop, every row of the resulting
store either was already present or is a fetched row whose bucket-start
millisecond timestamp is strictly below `(now - now mod sec) * 1000` —
the still-open trailing bucket is never persisted by this flow.  The
minute daemon's `insert_one` path, by contrast, inserts without
trimming. -/
theorem no_trailing_bar_persisted (store : List Candle) (now sec : Nat) (rows : List Candle)
    (r : Candle) (hr : r ∈ persistFetch store now sec rows) :
    r ∈ store ∨ (r ∈ rows ∧ r.ts < bucketStart now sec * 1000) := by
  rcases mem_upsert _ _ _ hr with h1 | h2
  · exact Or.inl h1
  · right
    unfold trimIncomplete at h2
    have h2' := List.mem_filter.mp h2
    refine ⟨h2'.1, ?_⟩
    have hle : (r.ts : Int) ≤ (bucketStart now sec : Int) * 1000 - 1 :=
      of_decide_eq_true h2'.2
    omega

/-- Witness for C8: a fetch at wall-clock second 125 with cadence 60
whose raw batch holds the closed bar at 60000 ms and the still-open bar
at 120000 ms; the bar at 120000 is trimmed, the bar at 60000 is
persisted and lies below the 120000 ms cutoff. -/
theorem no_trailing_bar_persisted_witness :
    (⟨"BTC/USDT", "1m", 60000, 1, 2, 0, 1, 5⟩ : Candle) ∈
      persistFetch [] 125 60
        [⟨"BTC/USDT", "1m", 60000, 1, 2, 0, 1, 5⟩,
          ⟨"BTC/USDT", "1m", 120000, 2, 2, 2, 2, 2⟩] ∧
    ((⟨"BTC/USDT", "1m", 60000, 1, 2, 0, 1, 5⟩ : Candle) ∈ ([] : List Candle) ∨
      ((⟨"BTC/USDT", "1m", 60000, 1, 2, 0, 1, 5⟩ : Candle) ∈
          [(⟨"BTC/USDT", "1m", 60000, 1, 2, 0, 1, 5⟩ : Candle),
            ⟨"BTC/USDT", "1m", 120000, 2, 2, 2, 2, 2⟩] ∧
        (60000 : Nat) < bucketStart 125 60 * 1000)) := by
  refine ⟨by decide, ?_⟩
  exact no_trailing_bar_persisted [] 125 60
    [⟨"BTC/USDT", "1m", 60000, 1, 2, 0, 1, 5⟩, ⟨"BTC/USDT", "1m", 120000, 2, 2, 2, 2, 2⟩]
    ⟨"BTC/USDT", "1m", 60000, 1, 2, 0, 1, 5⟩ (by decide)

/-- C8 counterexample. The claim that the still-open trailing bar is
always trimmed before the upsert is false: `insert_one` of
minute_daemon_multi_opt.py (src/patch_opt.ps1) persists the last fetched
row with no trim.  At wall-clock second 125 on the 1m stream the open
bucket starts at 120 s; a fetch returning the open bar at 120000 ms gets
persisted by `insert_one`, although its bucket start is not below the
`(T - T mod c)` cutoff and `trim_incomplete` would have dropped it. -/
theorem insert_one_persists_open_bar :
    insertOne "BTC/USDT" "1m" [⟨120000, 1, 2, 0, 1, 5⟩] [] =
      [⟨"BTC/USDT", "1m", 120000, 1, 2, 0, 1, 5⟩] ∧
    bucketStart 125 60 * 1000 ≤ 120000 ∧
    trimIncomplete 125 60 [⟨"BTC/USDT", "1m", 120000, 1, 2, 0, 1, 5⟩] = [] := by
  refine ⟨rfl, by decide, by decide⟩

-- Gap detection (C5).

/-- Modelled from the spec: the expected bucket-start boundaries of a
window `[start, start + n * c)` with cadence `c` (spec section 4.4; the
GapDetector code is not among the provided source files). -/
def expectedBuckets (start c n : Nat) : List Nat :=
  (List.range n).map (fun i => start + i * c)

/-- Modelled from the spec: the expected boundaries of the window whose
bucket is absent from the persisted timestamps (spec section 4.4). -/
def missingBuckets (persisted : List Nat) (start c n : Nat) : List Nat :=
  (expectedBuckets start c n).filter (fun b => !persisted.contains b)

/-- One step of gap-range accumulation: a missing bucket `b` either
extends the open range whose exclusive end is exactly `b` (adjacent
bucket) or opens a new single-bucket range `[b, b + c)`.  The
accumulator keeps ranges most-recent-first. -/
def mergeBuckets (c : Nat) (acc : List (Nat × Nat)) (b : Nat) : List (Nat × Nat) :=
  match acc with
  | [] => [(b, b + c)]
  | (s, e) :: rest => if e = b then (s, b + c) :: rest else (b, b + c) :: (s, e) :: rest

/-- Modelled from the spec: merge adjacent missing buckets into maximal
contiguous `[start, end)` sub-ranges (spec section 4.4). -/
def gapRanges (c : Nat) (missing : List Nat) : List (Nat × Nat) :=
  (missing.foldl (mergeBuckets c) []).reverse

/-- Modelled from the spec: `find_gaps(stream, start, end)` — compute the
expected boundaries of the window, keep the ones whose bucket is absent
from the persisted timestamps, and emit maximal contiguous missing
sub-ranges (spec section 4.4). -/
def findGaps (persisted : List Nat) (start endTs c : Nat) : List (Nat × Nat) :=
  gapRanges c (missingBuckets persisted start c ((endTs - start) / c))

theorem filter_range_run (p : Nat → Bool) (k : Nat) :
    ∀ n m, k + m ≤ n → (∀ i, i < n → (p i = true ↔ (k ≤ i ∧ i < k + m))) →
    (List.range n).filter p = (List.range m).map (fun j => k + j) := by
  intro n
  induction n with
  | zero =>
    intro m hm _
    have hm0 : m = 0 := by omega
    subst hm0
    rfl
  | succ n ih =>
    intro m hm hp
    by_cases hcase : k + m ≤ n
    · have hpn : p n = false := by
        cases hpv : p n with
        | false => rfl
        | true =>
          have := (hp n (by omega)).mp hpv
          omega
      rw [List.range_succ n, List.filter_append]
      have hsingle : List.filter p [n] = [] := by simp [hpn]
      rw [hsingle, List.append_nil]
      exact ih m hcase (fun i hi => hp i (by omega))
    · have hkm : k + m = n + 1 := by omega
      cases m with
      | zero =>
        have hall : ∀ a ∈ List.range (n + 1), ¬ p a = true := by
          intro a ha hpa
          have := (hp a (List.mem_range.mp ha)).mp hpa
          omega
        rw [List.filter_eq_nil_iff.mpr hall]
        rfl
      | succ m0 =>
        have hn : n = k + m0 := by omega
        have hpn : p n = true := (hp n (by omega)).mpr (by omega)
        rw [List.range_succ n, List.filter_append]
        have hsingle : List.filter p [n] = [n] := by simp [hpn]
        rw [hsingle]
        have ih' : (List.range n).filter p = (List.range m0).map (fun j => k + j) := by
          refine ih m0 (by omega) ?_
          intro i hi
          constructor
          · intro hpi
            have := (hp i (by omega)).mp hpi
            omega
          · intro hi2
            exact (hp i (by omega)).mpr (by omega)
        rw [ih', List.range_succ m0, List.map_append]
        simp [hn]

/-- C5. `find_gaps` returns maximal contiguous missing sub-ranges: for a
window of `n` cadence-`c` buckets in which exactly the three consecutive
buckets `k`, `k + 1`, `k + 2` are missing from the persisted timestamps
(every other expected bucket is persisted), the result is exactly one
sub-range spanning the three missing buckets — never three single-bucket
ranges. -/
theorem findGaps_merges_three_missing (persisted : List Nat) (start c k n : Nat)
    (hc : 0 < c) (hkn : k + 3 ≤ n)
    (hmiss : ∀ i, i < n →
      ((persisted.contains (start + i * c) = false) ↔ (k ≤ i ∧ i < k + 3))) :
    findGaps persisted start (start + n * c) c = [(start + k * c, start + (k + 3) * c)] := by
  unfold findGaps
  have hwin : (start + n * c - start) / c = n := by
    rw [Nat.add_sub_cancel_left start (n * c)]
    exact Nat.mul_div_cancel n hc
  rw [hwin]
  unfold missingBuckets expectedBuckets
  rw [List.filter_map]
  have hfil : (List.range n).filter
      ((fun b => !persisted.contains b) ∘ (fun i => start + i * c)) =
      (List.range 3).map (fun j => k + j) := by
    refine filter_range_run _ k n 3 hkn ?_
    intro i hi
    rw [Function.comp_apply, Bool.not_eq_true']
    exact hmiss i hi
  rw [hfil]
  have h3 : (List.range 3).map (fun j => k + j) = [k, k + 1, k + 2] := rfl
  rw [h3]
  show gapRanges c [start + k * c, start + (k + 1) * c, start + (k + 2) * c] = _
  unfold gapRanges
  show (List.foldl (mergeBuckets c) [] _).reverse = _
  rw [show List.foldl (mergeBuckets c) []
        [start + k * c, start + (k + 1) * c, start + (k + 2) * c] =
      List.foldl (mergeBuckets c) [(start + k * c, start + k * c + c)]
        [start + (k + 1) * c, start + (k + 2) * c] from rfl]
  have e1 : mergeBuckets c [(start + k * c, start + k * c + c)] (start + (k + 1) * c) =
      [(start + k * c, start + (k + 1) * c + c)] := by
    simp only [mergeBuckets]
    rw [if_pos (by ring)]
  have e2 : mergeBuckets c [(start + k * c, start + (k + 1) * c + c)] (start + (k + 2) * c) =
      [(start + k * c, start + (k + 2) * c + c)] := by
    simp only [mergeBuckets]
    rw [if_pos (by ring)]
  rw [show List.foldl (mergeBuckets c) [(start + k * c, start + k * c + c)]
        [start + (k + 1) * c, start + (k + 2) * c] =
      List.foldl (mergeBuckets c)
        (mergeBuckets c [(start + k * c, start + k * c + c)] (start + (k + 1) * c))
        [start + (k + 2) * c] from rfl]
  rw [e1]
  rw [show List.foldl (mergeBuckets c) [(start + k * c, start + (k + 1) * c + c)]
        [start + (k + 2) * c] =
      mergeBuckets c [(start + k * c, start + (k + 1) * c + c)] (start + (k + 2) * c) from rfl]
  rw [e2]
  have e3 : start + (k + 2) * c + c = start + (k + 3) * c := by ring
  rw [e3]
  rfl

/-- Witness for C5: window of 6 buckets of cadence 10 starting at 0, with
persisted candles at 0, 40, 50 on both sides of the missing buckets 10,
20, 30; the result is the single merged range `[10, 40)`. -/
theorem findGaps_merges_three_missing_witness :
    (0 < 10 ∧ (1 : Nat) + 3 ≤ 6 ∧ ∀ i, i < 6 →
      (([0, 40, 50].contains ((0 : Nat) + i * 10) = false) ↔ (1 ≤ i ∧ i < 1 + 3))) ∧
    findGaps [0, 40, 50] 0 (0 + 6 * 10) 10 = [(0 + 1 * 10, 0 + (1 + 3) * 10)] := by
  refine ⟨⟨by decide, by decide, by decide⟩, ?_⟩
  exact findGaps_merges_three_missing [0, 40, 50] 0 10 1 6 (by decide) (by decide) (by decide)

-- Retry (C6).

/-- Function `fetch_with_retry(ex, sym, tf, limit, since)` of
multi_symbols_to_db_opt.py (src/patch_opt.ps1), as state recursion over
the remaining iterations of its `for _ in range(4)` loop (one initial
attempt plus 3 retries, matching `CANDLE_PIPE_RETRIES=3` in
src/data_pipeline/README.md).  `fn attempt` is the result of the
attempt-th `ex.fetch_ohlcv` call — `some rows` on success, `none` when
it raises; the bare `except Exception` does not inspect the failure
kind, so every exception takes the same branch: sleep `delay` plus a
random jitter (`random.uniform(0, 0.2)` seconds, modelled in
milliseconds by the arbitrary function `jitter`), double the delay
capped at 8 seconds, and try again.  The result records the returned
rows, the number of calls made and the total sleep in milliseconds. -/
def fetchRetryGo (fn : Nat → Option (List RawBar)) (jitter : Nat → Nat) :
    Nat → Nat → Nat → Nat → List RawBar × Nat × Nat
  | 0, attempt, _delay, slept => ([], attempt, slept)
  | fuel + 1, attempt, delay, slept =>
    match fn attempt with
    | some rows => (rows, attempt + 1, slept)
    | none => fetchRetryGo fn jitter fuel (attempt + 1) (min (delay * 2) 8000)
        (slept + (delay + jitter attempt))

/-- Entry point of `fetch_with_retry` (src/patch_opt.ps1): 4 loop
iterations starting from `delay = 0.5` seconds (500 ms); when every
attempt raises, the loop falls through and the function returns the
empty list. -/
def fetchWithRetry (fn : Nat → Option (List RawBar)) (jitter : Nat → Nat) :
    List RawBar × Nat × Nat :=
  fetchRetryGo fn jitter 4 0 500 0

/-- The spec's concrete retry scenario: a fetch that raises on its first
two invocations and then succeeds with `rows`. -/
def failsTwiceThenOk (rows : List RawBar) : Nat → Option (List RawBar) :=
  fun n => if n < 2 then none else some rows

/-- C6 (amended). `fetch_with_retry` given a fetch that fails twice and
then succeeds returns the success result (not an error) after exactly 3
invocations, with total sleep at least `base_delay + base_delay * 2`
(500 ms plus 1000 ms, the two exponential backoff waits; non-negative
jitter only adds to it).  However the code has no non-transient branch:
its bare `except Exception` retries every failure kind, so a
persistently failing fetch — non-transient failures included — is
invoked on all 4 loop iterations, and exhaustion returns the empty list
rather than a distinct error kind. -/
theorem fetchWithRetry_two_failures_then_success (rows : List RawBar)
    (jitter : Nat → Nat) :
    fetchWithRetry (failsTwiceThenOk rows) jitter =
      (rows, 3, 500 + jitter 0 + (1000 + jitter 1)) ∧
    500 + 500 * 2 ≤ 500 + jitter 0 + (1000 + jitter 1) ∧
    (∀ fn : Nat → Option (List RawBar), (∀ n, fn n = none) →
      fetchWithRetry fn jitter =
        ([], 4, 500 + jitter 0 + (1000 + jitter 1) + (2000 + jitter 2) +
          (4000 + jitter 3))) := by
  refine ⟨?_, ?_, ?_⟩
  · have h : fetchWithRetry (failsTwiceThenOk rows) jitter =
        (rows, 3, 0 + (500 + jitter 0) + (1000 + jitter 1)) := rfl
    rw [h, Nat.zero_add]
  · omega
  · intro fn hfn
    have hfe : fn = fun _ => none := funext hfn
    subst hfe
    have h : fetchWithRetry (fun _ => none) jitter =
        ([], 4, 0 + (500 + jitter 0) + (1000 + jitter 1) + (2000 + jitter 2) +
          (4000 + jitter 3)) := rfl
    rw [h, Nat.zero_add]

/-- Witness for C6 at concrete inputs: one raw bar, constant 100 ms
jitter, and an always-failing fetch. -/
theorem fetchWithRetry_two_failures_then_success_witness :
    fetchWithRetry (failsTwiceThenOk [⟨180000, 1, 2, 0, 1, 5⟩]) (fun _ => 100) =
      ([⟨180000, 1, 2, 0, 1, 5⟩], 3, 500 + 100 + (1000 + 100)) ∧
    fetchWithRetry (fun _ => none) (fun _ => 100) =
      ([], 4, 500 + 100 + (1000 + 100) + (2000 + 100) + (4000 + 100)) := by
  have h := fetchWithRetry_two_failures_then_success [⟨180000, 1, 2, 0, 1, 5⟩] (fun _ => 100)
  exact ⟨h.1, h.2.2 (fun _ => none) (fun _ => rfl)⟩

/-- C6 counterexample. A non-transient failure is retried and does not
propagate as a distinct error kind: an always-raising fetch (whatever
the exception kind — `fetch_with_retry` catches bare `Exception`) is
invoked on all 4 loop iterations rather than once, and its exhausted
result is the empty list — the very value a successful fetch returning
no rows produces — so the terminal failure is indistinguishable from a
successful empty result. -/
theorem fetchWithRetry_no_terminal_branch :
    fetchWithRetry (fun _ => none) (fun _ => 0) = ([], 4, 7500) ∧
    fetchWithRetry (fun _ => some []) (fun _ => 0) = ([], 1, 0) ∧
    (fetchWithRetry (fun _ => none) (fun _ => 0)).1 =
      (fetchWithRetry (fun _ => some []) (fun _ => 0)).1 := by
  exact ⟨rfl, rfl, rfl⟩

-- Rate limiter (C7).

/-- Modelled from the spec: the shared RateLimiter schedules outbound
exchange calls with a fixed-window algorithm — with ceiling `R` requests
per second, the n-th granted call (counting across all concurrent
StreamWorkers sharing the single limiter instance) is issued at
millisecond `(n / R) * 1000` (spec section 4.1; the RateLimiter code is
not among the provided source files, only the ~20 requests/sec ceiling
described in src/data_pipeline/README.md). -/
def grantTimeMs (R n : Nat) : Nat := (n / R) * 1000

/-- C7. Rate ceiling: with `requests_per_second = R`, every sliding
1-second (1000 ms) window of granted call times contains at most `R`
calls, aggregated across all workers sharing the limiter: any finite set
of call indices whose grant times all fall in `[t, t + 1000)` has
cardinality at most `R`. -/
theorem rateLimiter_sliding_window_bound (R t : Nat) (s : Finset Nat) (hR : 0 < R)
    (hwin : ∀ n ∈ s, t ≤ grantTimeMs R n ∧ grantTimeMs R n < t + 1000) :
    s.card ≤ R := by
  rcases Finset.eq_empty_or_nonempty s with hs | ⟨n0, hn0⟩
  · rw [hs]
    simp
  · have hsub : s ⊆ Finset.Ico ((n0 / R) * R) ((n0 / R) * R + R) := by
      intro n hn
      have hbn := hwin n hn
      have hbn0 := hwin n0 hn0
      have hdiv_eq : n / R = n0 / R := by
        unfold grantTimeMs at hbn hbn0
        omega
      have hmodn : n % R < R := Nat.mod_lt n hR
      have hsplit : R * (n / R) + n % R = n := Nat.div_add_mod n R
      have hcomm : (n / R) * R = R * (n / R) := Nat.mul_comm _ _
      rw [Finset.mem_Ico, ← hdiv_eq]
      omega
    calc s.card ≤ (Finset.Ico ((n0 / R) * R) ((n0 / R) * R + R)).card :=
      Finset.card_le_card hsub
    _ = R := by rw [Nat.card_Ico]; omega

/-- Witness for C7: R = 2, window `[0, 1000)`, calls 0 and 1. -/
theorem rateLimiter_sliding_window_bound_witness :
    (0 < 2 ∧ ∀ n ∈ ({0, 1} : Finset Nat),
      0 ≤ grantTimeMs 2 n ∧ grantTimeMs 2 n < 0 + 1000) ∧
    ({0, 1} : Finset Nat).card ≤ 2 := by
  refine ⟨⟨by decide, by decide⟩, ?_⟩
  exact rateLimiter_sliding_window_bound 2 0 {0, 1} (by decide) (by decide)

-- Ingestion control surface (C1).

/-- HTTP method of a route. -/
inductive HttpMethod where
  | get
  | post
deriving DecidableEq, Repr

/-- The route table of the ingestion control router
(src/backend/api/routers/ingestion_control.py.bak.stopfix): an APIRouter
with prefix `/api/ingestion` exposing `GET /status`, `POST /start` and
`POST /stop`. -/
def ingestionControlRoutes : List (HttpMethod × String) :=
  [(HttpMethod.get, "/api/ingestion/status"),
   (HttpMethod.post, "/api/ingestion/start"),
   (HttpMethod.post, "/api/ingestion/stop")]

/-- C1 (amended). The ingestion control surface consists of exactly
three operations — start, stop and status: every route of the control
router is one of these three, all three are exposed, and pause and
resume are not exposed. -/
theorem controlRoutes_exactly_start_stop_status :
    (∀ r ∈ ingestionControlRoutes,
      r = (HttpMethod.get, "/api/ingestion/status") ∨
      r = (HttpMethod.post, "/api/ingestion/start") ∨
      r = (HttpMethod.post, "/api/ingestion/stop")) ∧
    (HttpMethod.get, "/api/ingestion/status") ∈ ingestionControlRoutes ∧
    (HttpMethod.post, "/api/ingestion/start") ∈ ingestionControlRoutes ∧
    (HttpMethod.post, "/api/ingestion/stop") ∈ ingestionControlRoutes ∧
    (HttpMethod.post, "/api/ingestion/pause") ∉ ingestionControlRoutes ∧
    (HttpMethod.post, "/api/ingestion/resume") ∉ ingestionControlRoutes := by
  decide

/-- C1 counterexample. The claim that all five operations (start, stop,
pause, resume, status) are exposed is false: the control router has no
pause route. -/
theorem controlRoutes_pause_missing :
    (HttpMethod.post, "/api/ingestion/pause") ∉ ingestionControlRoutes := by
  decide

-- Run-creation payload validation (C4).

/-- Characters removed by the JavaScript `trim()` at the ends of each
symbol and timeframe (the ASCII whitespace actually occurring in such
input). -/
def isJsWhitespace (c : Char) : Bool :=
  c == ' ' || c == '\t' || c == '\n' || c == '\r'

/-- JavaScript `s.trim()` on a symbol or timeframe string. -/
def trimString (s : String) : String :=
  String.mk (((s.data.dropWhile isJsWhitespace).reverse.dropWhile isJsWhitespace).reverse)

/-- Accumulator pass of the comma split. -/
def splitCommaAux : List Char → List Char → List String
  | [], acc => [String.mk acc.reverse]
  | c :: cs, acc =>
    if c = ',' then String.mk acc.reverse :: splitCommaAux cs []
    else splitCommaAux cs (c :: acc)

/-- JavaScript `symbols.split(",")`. -/
def splitComma (s : String) : List String := splitCommaAux s.data []

/-- The symbol list built by `buildPayload`
(src/ui/src/components/IngestionPanel.js): split the input on commas,
trim each part, drop empty strings. -/
def parseSymbols (symbols : String) : List String :=
  ((splitComma symbols).map trimString).filter (fun s => !(s == ""))

/-- One timeframe task row of the ingestion panel: the selected
timeframe string and the `Number(...)` conversion of the candles input
(`none` models a non-finite conversion result such as NaN). -/
structure TaskInput where
  timeframe : String
  candles : Option Int
deriving DecidableEq, Repr

/-- The filter applied to task rows by `buildPayload`: the trimmed
timeframe is non-empty and the candle count is finite and positive. -/
def taskValid (row : String × Option Int) : Bool :=
  !(row.1 == "") && (match row.2 with
    | some n => decide (0 < n)
    | none => false)

/-- The task payload built by `buildPayload`
(src/ui/src/components/IngestionPanel.js): trim each row's timeframe and
keep only valid rows. -/
def parseTasks (tasks : List TaskInput) : List (String × Option Int) :=
  (tasks.map (fun row => (trimString row.timeframe, row.candles))).filter taskValid

/-- The request body `{ symbols, tasks }` posted to
`POST /api/ingestion/run`. -/
structure IngestionRunPayload where
  symbols : List String
  tasks : List (String × Option Int)
deriving DecidableEq, Repr

/-- The `buildPayload` helper of the ingestion panel
(src/ui/src/components/IngestionPanel.js): throws when the symbol list
is empty, then when the task payload is empty, otherwise returns the run
payload. -/
def buildPayload (symbols : String) (tasks : List TaskInput) :
    Except String IngestionRunPayload :=
  if (parseSymbols symbols).isEmpty then Except.error "Please provide at least one symbol."
  else if (parseTasks tasks).isEmpty then Except.error "Please add at least one timeframe."
  else Except.ok ⟨parseSymbols symbols, parseTasks tasks⟩

/-- The requests issued by `handleStart`
(src/ui/src/components/IngestionPanel.js): `buildPayload` runs before
any network call, and when it throws, no ingestion request is issued at
all. -/
def startRequests (symbols : String) (tasks : List TaskInput) :
    List IngestionRunPayload :=
  match buildPayload symbols tasks with
  | Except.error _ => []
  | Except.ok p => [p]

/-- C4 (amended). An ingestion-run request with an empty symbol list
fails synchronously at payload-build time, before any request is issued;
but it is not the only configuration error failing the whole run: with a
non-empty symbol list and an empty (or entirely invalid) timeframe task
list, the run also fails synchronously before any request is issued. -/
theorem buildPayload_empty_symbols_fails_sync (symbols : String) (tasks : List TaskInput) :
    (parseSymbols symbols = [] →
      buildPayload symbols tasks = Except.error "Please provide at least one symbol." ∧
      startRequests symbols tasks = []) ∧
    (parseSymbols symbols ≠ [] → parseTasks tasks = [] →
      buildPayload symbols tasks = Except.error "Please add at least one timeframe." ∧
      startRequests symbols tasks = []) := by
  constructor
  · intro h
    have hb : buildPayload symbols tasks = Except.error "Please provide at least one symbol." := by
      unfold buildPayload
      rw [h]
      rfl
    exact ⟨hb, by unfold startRequests; rw [hb]⟩
  · intro h1 h2
    have hb : buildPayload symbols tasks = Except.error "Please add at least one timeframe." := by
      unfold buildPayload
      have hne : (parseSymbols symbols).isEmpty = false := by
        cases hl : parseSymbols symbols with
        | nil => exact absurd hl h1
        | cons x xs => rfl
      rw [hne, h2]
      rfl
    exact ⟨hb, by unfold startRequests; rw [hb]⟩

/-- Witness for C4: an empty symbol input fails before any request, and
so does a valid symbol input with an empty task list. -/
theorem buildPayload_empty_symbols_fails_sync_witness :
    (buildPayload "" [⟨"1m", some 600⟩] = Except.error "Please provide at least one symbol." ∧
      startRequests "" [⟨"1m", some 600⟩] = []) ∧
    (buildPayload "BTC/USDT" [] = Except.error "Please add at least one timeframe." ∧
      startRequests "BTC/USDT" [] = []) := by
  refine ⟨?_, ?_⟩
  · exact (buildPayload_empty_symbols_fails_sync "" [⟨"1m", some 600⟩]).1 (by decide)
  · exact (buildPayload_empty_symbols_fails_sync "BTC/USDT" []).2 (by decide) rfl

/-- C4 counterexample. The empty symbol list is not the only
configuration error that fails the whole run synchronously: with the
non-empty symbol list "BTC/USDT" and no timeframe tasks, `buildPayload`
still rejects the run before any request is issued. -/
theorem buildPayload_fails_without_empty_symbols :
    parseSymbols "BTC/USDT" ≠ [] ∧
    buildPayload "BTC/USDT" [] = Except.error "Please add at least one timeframe." ∧
    startRequests "BTC/USDT" [] = [] := by
  refine ⟨by decide, rfl, rfl⟩

-- Timeframe sorting (C9).

/-- The unit part of a timeframe key: all digit characters removed, the
rest lower-cased (`parseForSort` in src/unnamed/part_001; the keys are
ASCII, for which `Char.toLower` agrees with the JavaScript
`toLowerCase`). -/
def unitOf (k : String) : String :=
  String.mk ((k.data.filter (fun ch => !ch.isDigit)).map Char.toLower)

/-- The `UNIT_ORDER` lookup of src/unnamed/part_001 with its default
weight 999 for unrecognized units. -/
def weightOf (u : String) : Nat :=
  if u == "s" then 0
  else if u == "m" then 1
  else if u == "h" then 2
  else if u == "d" then 3
  else if u == "w" then 4
  else if u == "mo" then 5
  else 999

/-- The numeric magnitude of a timeframe key: the decimal value of its
digit characters, 0 when there are none (`Number(...) || 0` in
src/unnamed/part_001). -/
def magnitudeOf (k : String) : Nat :=
  (k.data.filter Char.isDigit).foldl (fun acc ch => acc * 10 + (ch.toNat - 48)) 0

/-- Function `parseForSort` of src/unnamed/part_001: unit weight and numeric
magnitude of a timeframe key. -/
def parseForSort (k : String) : Nat × Nat :=
  (weightOf (unitOf k), magnitudeOf k)

/-- The sort comparator of `sortTimeframes` (src/unnamed/part_001) as a
non-strict order: `a` comes no later than `b` when its unit weight is
smaller, or the weights are equal and its magnitude is no larger. -/
def tfLe (a b : String) : Bool :=
  decide ((parseForSort a).1 < (parseForSort b).1) ||
    (decide ((parseForSort a).1 = (parseForSort b).1) &&
      decide ((parseForSort a).2 ≤ (parseForSort b).2))

/-- The comparator order as a relation. -/
def tfRel (a b : String) : Prop := tfLe a b = true

instance : DecidableRel tfRel :=
  fun a b => inferInstanceAs (Decidable (tfLe a b = true))

theorem tfLe_total (a b : String) : tfLe a b = true ∨ tfLe b a = true := by
  unfold tfLe
  simp only [Bool.or_eq_true, Bool.and_eq_true, decide_eq_true_eq]
  omega

theorem tfLe_trans (a b c : String) (h1 : tfLe a b = true) (h2 : tfLe b c = true) :
    tfLe a c = true := by
  unfold tfLe at h1 h2 ⊢
  simp only [Bool.or_eq_true, Bool.and_eq_true, decide_eq_true_eq] at h1 h2 ⊢
  omega

instance : IsTotal String tfRel := ⟨tfLe_total⟩

instance : IsTrans String tfRel := ⟨fun a b c => tfLe_trans a b c⟩

/-- First-occurrence deduplication pass, tracking the keys already
seen. -/
def dedupFirstAux (seen : List String) : List String → List String
  | [] => []
  | x :: xs =>
    if x ∈ seen then dedupFirstAux seen xs
    else x :: dedupFirstAux (x :: seen) xs

/-- JavaScript `[...new Set(keys)]`: deduplication keeping first
occurrences in order. -/
def dedupFirst (keys : List String) : List String := dedupFirstAux [] keys

/-- Function `sortTimeframes` of src/unnamed/part_001: deduplicate, drop empty
(falsy) keys, then sort with the stable comparator sort (JavaScript
`Array.prototype.sort` is stable, which insertion sort with the
non-strict comparator order reproduces). -/
def sortTimeframes (keys : List String) : List String :=
  List.insertionSort tfRel ((dedupFirst keys).filter (fun k => !(k == "")))

theorem dedupFirstAux_nodup (l : List String) (seen : List String) :
    (dedupFirstAux seen l).Nodup ∧ ∀ x ∈ dedupFirstAux seen l, x ∉ seen := by
  induction l generalizing seen with
  | nil =>
    refine ⟨List.nodup_nil, ?_⟩
    intro x hx
    cases hx
  | cons x xs ih =>
    by_cases hx : x ∈ seen
    · simp only [dedupFirstAux, if_pos hx]
      exact ih seen
    · simp only [dedupFirstAux, if_neg hx]
      obtain ⟨hnd, hni⟩ := ih (x :: seen)
      constructor
      · rw [List.nodup_cons]
        exact ⟨fun hmem => (hni x hmem) (List.mem_cons_self x seen), hnd⟩
      · intro y hy
        rcases List.mem_cons.mp hy with h1 | h2
        · rw [h1]
          exact hx
        · exact fun hyseen => hni y h2 (List.mem_cons_of_mem x hyseen)

theorem dedupFirstAux_id (l : List String) (seen : List String)
    (hnd : l.Nodup) (hdisj : ∀ x ∈ l, x ∉ seen) : dedupFirstAux seen l = l := by
  induction l generalizing seen with
  | nil => rfl
  | cons x xs ih =>
    have hx : x ∉ seen := hdisj x (List.mem_cons_self x xs)
    simp only [dedupFirstAux, if_neg hx]
    congr 1
    refine ih (x :: seen) (List.nodup_cons.mp hnd).2 ?_
    intro y hy hmem
    rcases List.mem_cons.mp hmem with h1 | h2
    · rw [h1] at hy
      exact (List.nodup_cons.mp hnd).1 hy
    · exact hdisj y (List.mem_cons_of_mem x hy) h2

/-- C9. For every list of timeframe keys, `sortTimeframes` returns a
list that is duplicate-free, contains no empty strings, and is sorted
with respect to the comparator order `tfRel` (unit weight first with
unrecognized units weighted last, then numeric magnitude within equal
weight); consequently it is idempotent: applied to its own output it
returns the same list. -/
theorem sortTimeframes_nodup_sorted_idempotent (keys : List String) :
    (sortTimeframes keys).Nodup ∧
    "" ∉ sortTimeframes keys ∧
    List.Sorted tfRel (sortTimeframes keys) ∧
    sortTimeframes (sortTimeframes keys) = sortTimeframes keys := by
  have hperm : List.Perm
      (List.insertionSort tfRel ((dedupFirst keys).filter (fun k => !(k == ""))))
      ((dedupFirst keys).filter (fun k => !(k == ""))) :=
    List.perm_insertionSort tfRel _
  have hbase_nodup : ((dedupFirst keys).filter (fun k => !(k == ""))).Nodup :=
    List.Nodup.filter _ (dedupFirstAux_nodup keys []).1
  have hnd : (sortTimeframes keys).Nodup := hperm.symm.nodup hbase_nodup
  have hmem : "" ∉ sortTimeframes keys := by
    intro hmem0
    have hbase : ("" : String) ∈ (dedupFirst keys).filter (fun k => !(k == "")) :=
      hperm.mem_iff.mp hmem0
    have := (List.mem_filter.mp hbase).2
    simp at this
  have hsorted : List.Sorted tfRel (sortTimeframes keys) :=
    List.sorted_insertionSort tfRel _
  refine ⟨hnd, hmem, hsorted, ?_⟩
  show List.insertionSort tfRel
      ((dedupFirst (sortTimeframes keys)).filter (fun k => !(k == ""))) = _
  have hdd : dedupFirst (sortTimeframes keys) = sortTimeframes keys := by
    refine dedupFirstAux_id _ [] hnd ?_
    intro x _ hmem0
    cases hmem0
  rw [hdd]
  have hfil : (sortTimeframes keys).filter (fun k => !(k == "")) = sortTimeframes keys := by
    rw [List.filter_eq_self]
    intro a ha
    cases hab : a == "" with
    | false => rfl
    | true =>
      exfalso
      exact hmem (eq_of_beq hab ▸ ha)
  rw [hfil]
  exact List.Sorted.insertionSort_eq hsorted

-- Status store row merge (C10).

/-- The `PairStatus` union of the status model
(src/ui/ui/src/features/status/model). -/
inductive PairStatus where
  | active
  | paused
  | idle
  | error
  | done
deriving DecidableEq, Repr

/-- A `PairData` row of the status store
(src/ui/ui/src/features/status/model): progress values are integers
standing in for the JavaScript numbers, whose numeric content is
irrelevant to the claim proved here. -/
structure PairData where
  pair : String
  status : PairStatus
  gaps : Int
  timeframes : List (String × Int)
  updatedAt : Option String
  progress : Option Int
deriving DecidableEq, Repr

/-- JavaScript object spread merge of two timeframe-progress records,
as in `timeframes: { ...item.timeframes, ...row.timeframes }`
(src/ui/ui/src/store/statusStore.ts): keys of `a` keep their position
with `b`'s value winning on conflict, then `b`'s new keys follow. -/
def spreadMerge (a b : List (String × Int)) : List (String × Int) :=
  (a.map (fun p => match b.find? (fun q => q.1 == p.1) with
    | some q => q
    | none => p)) ++
  b.filter (fun q => !(a.any (fun p => p.1 == q.1)))

/-- The merged row built in the found branch of `mergeRow`
(src/ui/ui/src/store/statusStore.ts): `{ ...item, ...row, timeframes:
{ ...item.timeframes, ...row.timeframes } }` — the payload's required
fields overwrite the item's, its absent optional fields keep the item's,
and the timeframe records are spread-merged. -/
def mergeSpread (item row : PairData) : PairData :=
  { pair := row.pair
    status := row.status
    gaps := row.gaps
    timeframes := spreadMerge item.timeframes row.timeframes
    updatedAt := match row.updatedAt with
      | some u => some u
      | none => item.updatedAt
    progress := match row.progress with
      | some p => some p
      | none => item.progress }

/-- Recursive form of the `findIndex` / `map`-replace / append logic of
`mergeRow` (src/ui/ui/src/store/statusStore.ts): the first row whose
`pair` matches the payload's is replaced by the spread merge, the rest
stay unchanged; when no row matches, the payload is appended at the
end. -/
def mergeRowAux (row : PairData) : List PairData → List PairData
  | [] => [row]
  | item :: rest =>
    if item.pair == row.pair then mergeSpread item row :: rest
    else item :: mergeRowAux row rest

/-- Function `mergeRow` of the status store (src/ui/ui/src/store/statusStore.ts),
acting on the `rows` array. -/
def mergeRow (rows : List PairData) (row : PairData) : List PairData :=
  mergeRowAux row rows

theorem mergeRowAux_absent (row : PairData) (rows : List PairData)
    (h : row.pair ∉ rows.map PairData.pair) :
    mergeRowAux row rows = rows ++ [row] := by
  induction rows with
  | nil => rfl
  | cons item rest ih =>
    have hne : (item.pair == row.pair) = false := by
      cases hb : item.pair == row.pair with
      | false => rfl
      | true =>
        exfalso
        apply h
        rw [List.map_cons, eq_of_beq hb]
        exact List.mem_cons_self _ _
    simp only [mergeRowAux, hne, Bool.false_eq_true, if_false]
    rw [ih (fun hm => h (by rw [List.map_cons]; exact List.mem_cons_of_mem _ hm))]
    rfl

theorem mergeRowAux_present (row : PairData) (rows : List PairData)
    (h : row.pair ∈ rows.map PairData.pair) :
    ∃ pre item post, rows = pre ++ item :: post ∧ item.pair = row.pair ∧
      mergeRowAux row rows = pre ++ mergeSpread item row :: post := by
  induction rows with
  | nil =>
    rw [List.map_nil] at h
    cases h
  | cons it rest ih =>
    by_cases hb : it.pair = row.pair
    · refine ⟨[], it, rest, rfl, hb, ?_⟩
      simp only [mergeRowAux, beq_iff_eq, if_pos hb]
      rfl
    · have h' : row.pair ∈ rest.map PairData.pair := by
        rw [List.map_cons] at h
        rcases List.mem_cons.mp h with h1 | h2
        · exact absurd h1.symm hb
        · exact h2
      obtain ⟨pre, item, post, he, hp, hm⟩ := ih h'
      refine ⟨it :: pre, item, post, by rw [he]; rfl, hp, ?_⟩
      simp only [mergeRowAux, beq_iff_eq, if_neg hb]
      rw [hm]
      rfl

/-- C10. `mergeRow` preserves pair uniqueness in the status store: for a
store whose rows hold at most one entry per pair and any update payload,
the merged rows still hold at most one entry per pair; the row count is
unchanged when the payload's pair was already present — that row is
updated in place by the spread merge (whose timeframe records are the
merge of the item's and the payload's) — and grows by exactly one when
the pair was absent. -/
theorem mergeRow_preserves_pair_uniqueness (rows : List PairData) (row : PairData)
    (hnd : (rows.map PairData.pair).Nodup) :
    ((mergeRow rows row).map PairData.pair).Nodup ∧
    (row.pair ∈ rows.map PairData.pair → (mergeRow rows row).length = rows.length) ∧
    (row.pair ∉ rows.map PairData.pair → (mergeRow rows row).length = rows.length + 1) ∧
    (row.pair ∈ rows.map PairData.pair → ∃ pre item post,
      rows = pre ++ item :: post ∧ item.pair = row.pair ∧
      mergeRow rows row = pre ++ mergeSpread item row :: post) := by
  by_cases hin : row.pair ∈ rows.map PairData.pair
  · obtain ⟨pre, item, post, he, hp, hm⟩ := mergeRowAux_present row rows hin
    have hm' : mergeRow rows row = pre ++ mergeSpread item row :: post := hm
    have hpair : (mergeSpread item row).pair = row.pair := rfl
    have hmap : (mergeRow rows row).map PairData.pair = rows.map PairData.pair := by
      rw [hm', he]
      simp only [List.map_append, List.map_cons, hpair, hp]
    refine ⟨?_, ?_, ?_, ?_⟩
    · rw [hmap]
      exact hnd
    · intro _
      rw [hm', he]
      simp
    · intro hni
      exact absurd hin hni
    · intro _
      exact ⟨pre, item, post, he, hp, hm'⟩
  · have hm' : mergeRow rows row = rows ++ [row] := mergeRowAux_absent row rows hin
    refine ⟨?_, ?_, ?_, ?_⟩
    · rw [hm', List.map_append, List.map_singleton]
      rw [List.nodup_append]
      refine ⟨hnd, List.nodup_singleton _, ?_⟩
      intro a ha hb
      rw [List.mem_singleton] at hb
      rw [hb] at ha
      exact hin ha
    · intro hi
      exact absurd hi hin
    · intro _
      rw [hm']
      simp
    · intro hi
      exact absurd hi hin

/-- Sample status-store state for the C10 witness. -/
def samplePairRow : PairData :=
  ⟨"BTC/USDT", PairStatus.active, 0, [("1m", 10)], none, none⟩

/-- Sample update payload for the C10 witness, hitting the same pair. -/
def samplePairUpdate : PairData :=
  ⟨"BTC/USDT", PairStatus.done, 1, [("5m", 20)], none, none⟩

/-- Witness for C10 at a concrete one-row store and a payload whose pair
is already present. -/
theorem mergeRow_preserves_pair_uniqueness_witness :
    ((mergeRow [samplePairRow] samplePairUpdate).map PairData.pair).Nodup ∧
    (samplePairUpdate.pair ∈ [samplePairRow].map PairData.pair →
      (mergeRow [samplePairRow] samplePairUpdate).length = [samplePairRow].length) ∧
    (samplePairUpdate.pair ∉ [samplePairRow].map PairData.pair →
      (mergeRow [samplePairRow] samplePairUpdate).length = [samplePairRow].length + 1) ∧
    (samplePairUpdate.pair ∈ [samplePairRow].map PairData.pair → ∃ pre item post,
      [samplePairRow] = pre ++ item :: post ∧ item.pair = samplePairUpdate.pair ∧
      mergeRow [samplePairRow] samplePairUpdate =
        pre ++ mergeSpread item samplePairUpdate :: post) :=
  mergeRow_preserves_pair_uniqueness [samplePairRow] samplePairUpdate (by decide)
